import Mathlib

/-!
Verification of the `envdir-helper` utility (`envdir/cli.py`) against its
specification.  The program is embedded shallowly: strings are `List Char`,
filesystem effects are explicit snapshot data, and each Python function is
translated to a Lean definition bearing the same name.
-/

deriving instance DecidableEq for Except

namespace Envdir

/-- Strings are modelled as lists of characters. -/
abbrev Str := List Char

/-! ### Shell quoting (`shlex.quote`)

`shlex.quote(s)` returns `''` for the empty string, `s` itself when every
character is "safe" (ASCII word characters and `@ % + = : , . -` and the
slash), and otherwise wraps `s`
in single quotes with every inner single quote replaced by the five-character
sequence single-quote, double-quote, single-quote, double-quote, single-quote.
-/

/-- Characters the `_find_unsafe` regular expression of `shlex` (with
`re.ASCII`) treats as safe: ASCII alphanumerics, underscore, the slash, and
`@ % + = : , . -`. -/
def isSafeChar (c : Char) : Bool :=
  c.isAlphanum || c = '_' || c = '@' || c = '%' || c = '+' || c = '='
    || c = ':' || c = ',' || c = '.' || c = '/' || c = '-'

/-- The replacement applied inside the quoted form: a single quote becomes
the sequence `'"'"'`; every other character is kept. -/
def quoteReplace (c : Char) : Str :=
  if c = '\'' then ['\'', '"', '\'', '"', '\''] else [c]

/-- `shlex.quote` from the Python standard library, as used by the renderers. -/
def shlex_quote (s : Str) : Str :=
  if s = [] then ['\'', '\'']
  else if s.all isSafeChar then s
  else '\'' :: (s.flatMap quoteReplace ++ ['\''])

/-! ### A POSIX shell word evaluator

To state the round-trip property we model how a POSIX shell expands a single
word that contains no parameter or command expansion: characters are consumed
under a quoting state; metacharacters, expansion triggers and escapes outside
quotes make the model reject (`none`), since the word would not expand to a
literal string.
-/

/-- The backquote character (command substitution trigger). -/
def backquote : Char := Char.ofNat 96

/-- Characters that a POSIX shell does not treat as literal text when they
appear unquoted in a word: whitespace, control operators, redirection,
expansion triggers, escape, globbing, tilde and comment markers. -/
def shellSpecial (c : Char) : Bool :=
  c = ' ' || c = '\t' || c = '\n' || c = '\r' || c = '|' || c = '&' || c = ';'
    || c = '<' || c = '>' || c = '(' || c = ')' || c = '$' || c = backquote
    || c = '\\' || c = '*' || c = '?' || c = '[' || c = ']' || c = '~'
    || c = '#' || c = '!' || c = '\x7b' || c = '\x7d' || c = '^'

/-- Quoting state of the shell word scanner. -/
inductive QuoteState where
  | norm
  | single
  | double
deriving DecidableEq

/-- Expand a single shell word: quote removal with single- and double-quote
handling.  Returns `none` when the word contains an unquoted metacharacter,
an unterminated quote, or a character that is not literal inside double
quotes. -/
def evalShellWord : QuoteState → Str → Option Str
  | .norm, [] => some []
  | .norm, c :: rest =>
    if c = '\'' then evalShellWord .single rest
    else if c = '"' then evalShellWord .double rest
    else if shellSpecial c then none
    else (evalShellWord .norm rest).map (c :: ·)
  | .single, [] => none
  | .single, c :: rest =>
    if c = '\'' then evalShellWord .norm rest
    else (evalShellWord .single rest).map (c :: ·)
  | .double, [] => none
  | .double, c :: rest =>
    if c = '"' then evalShellWord .norm rest
    else if c = '$' || c = '\\' || c = backquote then none
    else (evalShellWord .double rest).map (c :: ·)

/-! ### Strings and paths -/

/-- Python's string ordering: lexicographic comparison by code point. -/
def strLt : Str → Str → Bool
  | _, [] => false
  | [], _ :: _ => true
  | a :: as, b :: bs => a.toNat < b.toNat || (a.toNat == b.toNat && strLt as bs)

/-- `a ≤ b` on strings, as used by Python's `sorted`. -/
def strLe (a b : Str) : Bool := !(strLt b a)

/-- Python's `str.endswith`. -/
def endswith (s sfx : Str) : Bool := sfx.isSuffixOf s

/-- `os.path.join` for POSIX paths, restricted to two components as used by
`walk_entries`. -/
def pathJoin (a b : Str) : Str :=
  if b.head? = some '/' then b
  else if a = [] ∨ a.getLast? = some '/' then a ++ b
  else a ++ '/' :: b

/-! ### UTF-8 decoding (`bytes.decode("UTF-8")`, strict) -/

/-- A UTF-8 continuation byte. -/
def utf8Cont (b : Nat) : Bool := 128 ≤ b && b ≤ 191

/-- The payload of a continuation byte. -/
def contVal (b : Nat) : Nat := b - 128

/-- The reason string used for decoding failures. -/
def decodeErr : Str := "UnicodeDecodeError".toList

/-- Constraint on the first continuation byte of a three-byte sequence:
lead `0xE0` requires `0xA0`-`0xBF` (no overlong forms) and lead `0xED`
requires `0x80`-`0x9F` (no surrogates). -/
def utf8Cont2 (b c1 : Nat) : Bool :=
  if b == 224 then 160 ≤ c1 && c1 ≤ 191
  else if b == 237 then 128 ≤ c1 && c1 ≤ 159
  else utf8Cont c1

/-- Constraint on the first continuation byte of a four-byte sequence:
lead `0xF0` requires `0x90`-`0xBF` (no overlong forms) and lead `0xF4`
requires `0x80`-`0x8F` (nothing above `U+10FFFF`). -/
def utf8Cont3 (b c1 : Nat) : Bool :=
  if b == 240 then 144 ≤ c1 && c1 ≤ 191
  else if b == 244 then 128 ≤ c1 && c1 ≤ 143
  else utf8Cont c1

/-- Strict UTF-8 decoding of a byte sequence, as performed by
`bytes.decode("UTF-8")`: rejects stray continuation bytes, overlong forms,
surrogates, truncated sequences and leads above `0xF4`. -/
def utf8Decode : List Nat → Except Str Str
  | [] => .ok []
  | b :: l =>
    if b < 128 then (utf8Decode l).map (fun cs => Char.ofNat b :: cs)
    else if 194 ≤ b && b ≤ 223 then
      match l with
      | c1 :: l1 =>
        if utf8Cont c1 then
          (utf8Decode l1).map (fun cs => Char.ofNat ((b - 192) * 64 + contVal c1) :: cs)
        else .error decodeErr
      | [] => .error decodeErr
    else if 224 ≤ b && b ≤ 239 then
      match l with
      | c1 :: c2 :: l2 =>
        if utf8Cont2 b c1 && utf8Cont c2 then
          (utf8Decode l2).map
            (fun cs => Char.ofNat ((b - 224) * 4096 + contVal c1 * 64 + contVal c2) :: cs)
        else .error decodeErr
      | _ => .error decodeErr
    else if 240 ≤ b && b ≤ 244 then
      match l with
      | c1 :: c2 :: c3 :: l3 =>
        if utf8Cont3 b c1 && utf8Cont c2 && utf8Cont c3 then
          (utf8Decode l3).map
            (fun cs =>
              Char.ofNat ((b - 240) * 262144 + contVal c1 * 4096 + contVal c2 * 64 + contVal c3)
                :: cs)
        else .error decodeErr
      | _ => .error decodeErr
    else .error decodeErr

/-! ### Content resolution -/

/-- `from_program`: runs the entry (modelled by its captured exit status and
standard-output bytes, or an error when the process cannot be started,
`spawn`), raises on a non-zero exit status because of `check=True`, and
decodes the captured bytes as UTF-8. -/
def from_program (spawn : Except Str (Int × List Nat)) : Except Str Str :=
  match spawn with
  | .error e => .error e
  | .ok (code, out) =>
    if code ≠ 0 then .error "CalledProcessError: non-zero exit status".toList
    else utf8Decode out

/-- Universal-newline translation performed by text-mode reads in Python:
both the pair carriage-return line-feed and a lone carriage return are
translated to a line feed. -/
def universalNewlines : Str → Str
  | [] => []
  | '\r' :: '\n' :: rest => '\n' :: universalNewlines rest
  | '\r' :: rest => '\n' :: universalNewlines rest
  | c :: rest => c :: universalNewlines rest

/-- `from_file`: `open(path, "r")` followed by `read()`.  The raw bytes (or
the I/O error raised while opening or reading) are `contents`; `dec` is the
text codec of the runtime's preferred locale encoding, and universal-newline
translation is applied to the decoded text. -/
def from_file (dec : List Nat → Except Str Str) (contents : Except Str (List Nat)) :
    Except Str Str :=
  match contents with
  | .error e => .error e
  | .ok bs => (dec bs).map universalNewlines

/-! ### Directory snapshot and the walk -/

/-- One directory entry as observed by a run: its name from `os.listdir`,
the result of `os.stat` on it (a mode, or the exception message), and the
outcomes of the two possible resolutions: spawning it as a program
(exit status and captured standard-output bytes) and reading its raw bytes. -/
structure EntryFS where
  name : Str
  statResult : Except Str Nat
  spawnResult : Except Str (Int × List Nat)
  fileBytes : Except Str (List Nat)

/-- `stat.S_ISDIR`: the file-type bits of the mode indicate a directory. -/
def directory (mode : Nat) : Bool := mode &&& 0o170000 == 0o040000

/-- `executable`: `stat.S_IMODE(mode) & (S_IXUSR | S_IXGRP | S_IXOTH) != 0`. -/
def executable (mode : Nat) : Bool :=
  ((mode &&& 0o7777) &&& (0o100 ||| 0o10 ||| 0o1)) != 0

/-- Lines 111-112 of `walk_entries`: drop one trailing newline if present. -/
def stripNewline (content : Str) : Str :=
  if endswith content ['\n'] then content.dropLast else content

/-- The body of the `walk_entries` loop for a single entry: stat, skip
directories, resolve via program execution or file read, catch any failure
as a skip report, and strip the trailing newline on success.  `.error`
carries the `(path, reason)` pair passed to `on_skipped`; `.ok none` is a
silently skipped directory; `.ok (some pair)` is a yielded name/value pair. -/
def processEntry (dir : Str) (dec : List Nat → Except Str Str) (e : EntryFS) :
    Except (Str × Str) (Option (Str × Str)) :=
  match e.statResult with
  | .error reason => .error (pathJoin dir e.name, reason)
  | .ok mode =>
    if directory mode then .ok none
    else
      match (if executable mode then from_program e.spawnResult else from_file dec e.fileBytes) with
      | .error reason => .error (pathJoin dir e.name, reason)
      | .ok content => .ok (some (e.name, stripNewline content))

/-- Sorting relation used to model Python's `sorted` over entry names. -/
def entryLe (a b : EntryFS) : Prop := strLe a.name b.name = true

instance : DecidableRel entryLe :=
  fun a b => inferInstanceAs (Decidable (strLe a.name b.name = true))

/-- `sorted(os.listdir(envdir))`, lifted to entries: a stable sort by name. -/
def sortEntries (entries : List EntryFS) : List EntryFS :=
  List.insertionSort entryLe entries

/-- The loop of `walk_entries` over an already sorted listing, collecting the
yielded pairs and the skip reports, each in processing order. -/
def walkSorted (dir : Str) (dec : List Nat → Except Str Str) :
    List EntryFS → List (Str × Str) × List (Str × Str)
  | [] => ([], [])
  | e :: rest =>
    let r := walkSorted dir dec rest
    match processEntry dir dec e with
    | .error w => (r.1, w :: r.2)
    | .ok none => r
    | .ok (some o) => (o :: r.1, r.2)

/-- `walk_entries`: sort the listing, then process each entry in order. -/
def walk_entries (dir : Str) (dec : List Nat → Except Str Str) (entries : List EntryFS) :
    List (Str × Str) × List (Str × Str) :=
  walkSorted dir dec (sortEntries entries)

/-! ### Rendering and the driver -/

/-- `detect_env_script(path, rc, default)`: returns `rc` when `path` ends
with `"rc"` and `dflt` otherwise. -/
def detect_env_script (path : Str) (rc dflt : Str → Str → Str) : Str → Str → Str :=
  if endswith path "rc".toList then rc else dflt

/-- The export renderer: quoted assignment, then a separate export. -/
def export_env_script (name content : Str) : Str :=
  let qname := shlex_quote name
  let qcontent := shlex_quote content
  qname ++ "=".toList ++ qcontent ++ "; export ".toList ++ qname

/-- The no-export renderer: only the quoted assignment. -/
def no_export_env_script (name content : Str) : Str :=
  let qname := shlex_quote name
  let qcontent := shlex_quote content
  qname ++ "=".toList ++ qcontent

/-- The warning line written to the standard-error stream for a skipped
entry (`warn_on_skipped` in `main`). -/
def warn_on_skipped (prog path reason : Str) : Str :=
  prog ++ ": skipping ".toList ++ path ++ ": ".toList ++ reason

/-- The body of `main` after the directory was listed: pick the renderer
from the tri-state export flag (autodetection on the directory path when the
flag is absent), then render every walked pair and every skip report.
Returns the standard-output lines and the standard-error lines, each in
emission order. -/
def main (prog : Str) (exportFlag : Option Bool) (envdir : Str)
    (dec : List Nat → Except Str Str) (entries : List EntryFS) :
    List Str × List Str :=
  let env_script :=
    match exportFlag with
    | none => detect_env_script envdir no_export_env_script export_env_script
    | some true => export_env_script
    | some false => no_export_env_script
  let walked := walk_entries envdir dec entries
  (walked.1.map (fun p => env_script p.1 p.2),
    walked.2.map (fun w => warn_on_skipped prog w.1 w.2))

/-- A whole invocation: `os.listdir` runs before any line is produced, and
a listing failure propagates out of `main` uncaught. -/
def runMain (prog : Str) (exportFlag : Option Bool) (envdir : Str)
    (dec : List Nat → Except Str Str) (listing : Except Str (List EntryFS)) :
    Except Str (List Str × List Str) :=
  match listing with
  | .error e => .error e
  | .ok entries => .ok (main prog exportFlag envdir dec entries)

/-- Process exit status of a run: an uncaught exception terminates the
interpreter with a non-zero status, a completed run exits with zero. -/
def exitCode (r : Except Str (List Str × List Str)) : Nat :=
  match r with
  | .error _ => 1
  | .ok _ => 0

/-- Whether an entry takes the success path of the loop body: it can be
stat-ed, is not a directory, and its resolution (execution when any execute
bit is set, file read otherwise) succeeds. -/
def entryEmitsLine (dec : List Nat → Except Str Str) (e : EntryFS) : Bool :=
  match e.statResult with
  | .error _ => false
  | .ok mode =>
    !directory mode &&
      (match (if executable mode then from_program e.spawnResult else from_file dec e.fileBytes) with
       | .ok _ => true
       | .error _ => false)

/-- Agreement of two directory snapshots on everything a run observes. -/
def agreeEntry (a b : EntryFS) : Prop :=
  a.name = b.name ∧ a.statResult = b.statResult ∧ a.spawnResult = b.spawnResult
    ∧ a.fileBytes = b.fileBytes

/-- The tail of the loop body after classification: turn a resolver outcome
into the per-entry result (skip report on failure, stripped pair on
success). -/
def resolvedEntry (dir name : Str) (r : Except Str Str) :
    Except (Str × Str) (Option (Str × Str)) :=
  match r with
  | .error reason => .error (pathJoin dir name, reason)
  | .ok content => .ok (some (name, stripNewline content))

/-- A plain readable file named `PATH` with content byte `x`, used to probe
the autodetection heuristic. -/
def rcExampleEntry : EntryFS :=
  { name := "PATH".toList, statResult := .ok 0o100644,
    spawnResult := .error [], fileBytes := .ok [120] }

/-- A small unsorted listing with one readable file, one executable and one
unreadable file. -/
def C4Entries : List EntryFS :=
  [{ name := ['B'], statResult := .ok 0o100644, spawnResult := .error [],
     fileBytes := .ok [98] },
   { name := ['A'], statResult := .ok 0o100755, spawnResult := .ok (0, [97]),
     fileBytes := .error [] },
   { name := ['C'], statResult := .ok 0o100644, spawnResult := .error [],
     fileBytes := .error "denied".toList }]

theorem safeChar_not_quote {c : Char} (h : isSafeChar c = true) : c ≠ '\'' := by
  intro he; subst he; simp [isSafeChar] at h

theorem safeChar_not_dquote {c : Char} (h : isSafeChar c = true) : c ≠ '"' := by
  intro he; subst he; simp [isSafeChar] at h

theorem safeChar_not_special {c : Char} (h : isSafeChar c = true) :
    shellSpecial c = false := by
  by_contra hb
  rw [Bool.not_eq_false] at hb
  simp only [shellSpecial, Bool.or_eq_true, decide_eq_true_eq, or_assoc] at hb
  rcases hb with hc|hc|hc|hc|hc|hc|hc|hc|hc|hc|hc|hc|hc|hc|hc|hc|hc|hc|hc|hc|hc|hc|hc|hc <;>
    (subst hc; revert h; decide)

theorem eval_safe (s : Str) (h : s.all isSafeChar = true) :
    evalShellWord .norm s = some s := by
  induction s with
  | nil => rfl
  | cons c rest ih =>
    simp only [List.all_cons, Bool.and_eq_true] at h
    simp [evalShellWord, safeChar_not_quote h.1, safeChar_not_dquote h.1,
      safeChar_not_special h.1, ih h.2]

theorem eval_quoted (s : Str) :
    evalShellWord .single (s.flatMap quoteReplace ++ ['\'']) = some s := by
  induction s with
  | nil => rfl
  | cons c rest ih =>
    by_cases hc : c = '\''
    · subst hc
      simp only [List.flatMap_cons, quoteReplace, if_pos rfl, List.append_assoc,
        List.cons_append, List.nil_append]
      simp [evalShellWord, backquote, ih]
    · simp only [List.flatMap_cons, quoteReplace, if_neg hc, List.append_assoc,
        List.cons_append, List.nil_append]
      simp [evalShellWord, hc, ih]

/-- C2: for every string value `v` (including the empty string and strings
with quotes, whitespace, metacharacters and newlines), the token produced by
the shell-quoting function expands, under the POSIX word-expansion model, to
exactly `v`; and the empty string quotes to the two-character token of two
single quotes. -/
theorem C2_shlex_quote_roundtrip :
    (∀ v : Str, evalShellWord .norm (shlex_quote v) = some v)
    ∧ shlex_quote [] = ['\'', '\''] := by
  refine ⟨fun v => ?_, rfl⟩
  by_cases hv : v = []
  · subst hv; rfl
  · rw [shlex_quote, if_neg hv]
    by_cases hs : v.all isSafeChar
    · rw [if_pos hs]; exact eval_safe v hs
    · rw [if_neg hs]
      simpa [evalShellWord] using eval_quoted v

/-- Closed instance of `C2_shlex_quote_roundtrip` at a concrete value. -/
theorem C2_witness :
    evalShellWord .norm (shlex_quote ('i' :: 't' :: '\'' :: 's' :: []))
      = some ('i' :: 't' :: '\'' :: 's' :: []) :=
  C2_shlex_quote_roundtrip.1 ('i' :: 't' :: '\'' :: 's' :: [])

theorem strLt_irrefl : ∀ a : Str, strLt a a = false
  | [] => rfl
  | c :: cs => by
    simp only [strLt, Bool.or_eq_false_iff, Bool.and_eq_false_iff,
      decide_eq_false_iff_not, beq_eq_false_iff_ne, ne_eq]
    exact ⟨Nat.lt_irrefl _, Or.inr (strLt_irrefl cs)⟩

theorem strLt_asymm : ∀ a b : Str, strLt a b = true → strLt b a = false
  | [], [] => by simp [strLt]
  | [], _ :: _ => by simp [strLt]
  | _ :: _, [] => by simp [strLt]
  | a :: as, b :: bs => by
    intro h
    simp only [strLt, Bool.or_eq_true, Bool.and_eq_true, decide_eq_true_eq,
      beq_iff_eq] at h
    simp only [strLt, Bool.or_eq_false_iff, Bool.and_eq_false_iff,
      decide_eq_false_iff_not, beq_eq_false_iff_ne, ne_eq]
    rcases h with h | ⟨he, hlt⟩
    · exact ⟨by omega, Or.inl (by omega)⟩
    · exact ⟨by omega, Or.inr (strLt_asymm as bs hlt)⟩

theorem strLt_conn : ∀ a b c : Str, strLt c a = true → strLt c b = true ∨ strLt b a = true
  | [], _, [] => by simp [strLt]
  | [], _, _ :: _ => by simp [strLt]
  | _ :: _, [], [] => by simp [strLt]
  | x :: xs, y :: ys, [] => by simp [strLt]
  | x :: xs, [], z :: zs => by simp [strLt]
  | x :: xs, y :: ys, z :: zs => by
    intro h
    simp only [strLt, Bool.or_eq_true, Bool.and_eq_true, decide_eq_true_eq,
      beq_iff_eq] at h ⊢
    rcases h with h | ⟨he, hlt⟩
    · by_cases hzy : z.toNat < y.toNat
      · exact Or.inl (Or.inl hzy)
      · exact Or.inr (Or.inl (by omega))
    · by_cases hzy : z.toNat < y.toNat
      · exact Or.inl (Or.inl hzy)
      · by_cases hyx : y.toNat < x.toNat
        · exact Or.inr (Or.inl hyx)
        · have hy : z.toNat = y.toNat := by omega
          have hx : y.toNat = x.toNat := by omega
          rcases strLt_conn xs ys zs hlt with hr | hr
          · exact Or.inl (Or.inr ⟨hy, hr⟩)
          · exact Or.inr (Or.inr ⟨hx, hr⟩)

theorem strLt_eq_of_not : ∀ a b : Str, strLt a b = false → strLt b a = false → a = b
  | [], [], _, _ => rfl
  | [], _ :: _, h1, _ => by simp [strLt] at h1
  | _ :: _, [], _, h2 => by simp [strLt] at h2
  | x :: xs, y :: ys, h1, h2 => by
    simp only [strLt, Bool.or_eq_false_iff, Bool.and_eq_false_iff,
      decide_eq_false_iff_not, beq_eq_false_iff_ne, ne_eq] at h1 h2
    have hxy : x.toNat = y.toNat := by omega
    have hx : x = y := by
      rw [← Char.ofNat_toNat x, ← Char.ofNat_toNat y, hxy]
    have htl : xs = ys := by
      refine strLt_eq_of_not xs ys ?_ ?_
      · rcases h1.2 with h | h
        · omega
        · exact h
      · rcases h2.2 with h | h
        · omega
        · exact h
    rw [hx, htl]

instance : IsTotal EntryFS entryLe :=
  ⟨fun a b => by
    unfold entryLe strLe
    cases h : strLt b.name a.name with
    | false => exact Or.inl (by simp [h])
    | true => exact Or.inr (by simp [strLt_asymm _ _ h])⟩

instance : IsTrans EntryFS entryLe :=
  ⟨fun a b c hab hbc => by
    unfold entryLe strLe at *
    simp only [Bool.not_eq_true'] at hab hbc ⊢
    by_contra hne
    have hca : strLt c.name a.name = true := by
      cases h : strLt c.name a.name
      · exact absurd h hne
      · rfl
    rcases strLt_conn a.name b.name c.name hca with h | h
    · rw [h] at hbc; cases hbc
    · rw [h] at hab; cases hab⟩

theorem strLe_ne_lt {a b : Str} (hle : strLe a b = true) (hne : a ≠ b) :
    strLt a b = true := by
  unfold strLe at hle
  simp only [Bool.not_eq_true'] at hle
  cases h : strLt a b
  · exact absurd (strLt_eq_of_not a b h hle) hne
  · rfl

/-- C1, counterexample: in a directory whose own path is `testrc`, the entry
named `PATH` — whose name does not end in `rc` — is rendered with the
no-export renderer, not the export renderer the claim requires. -/
theorem C1_counterexample :
    (main "envdir-helper".toList none "testrc".toList utf8Decode [rcExampleEntry]).1
      = [no_export_env_script "PATH".toList ['x']]
    ∧ no_export_env_script "PATH".toList ['x'] ≠ export_env_script "PATH".toList ['x']
    ∧ endswith "PATH".toList "rc".toList = false := by
  refine ⟨?_, by decide, by decide⟩
  decide

/-- C1, amended: when no explicit export flag is given, the rendering mode is
decided once per run from the directory path: if the directory path ends with
the literal suffix `rc`, the no-export renderer is used for every entry,
otherwise the export renderer is used for every entry; entry names play no
role in the choice. -/
theorem C1_autodetect_on_directory (prog dir : Str) (dec : List Nat → Except Str Str)
    (entries : List EntryFS) :
    (endswith dir "rc".toList = true →
      main prog none dir dec entries = main prog (some false) dir dec entries)
    ∧ (endswith dir "rc".toList = false →
      main prog none dir dec entries = main prog (some true) dir dec entries) := by
  constructor <;> intro h <;> unfold main detect_env_script <;> rw [h] <;> simp

/-- Closed instance of `C1_autodetect_on_directory` at concrete inputs. -/
theorem C1_witness :
    main "p".toList none "testrc".toList utf8Decode [rcExampleEntry]
      = main "p".toList (some false) "testrc".toList utf8Decode [rcExampleEntry]
    ∧ main "p".toList none "dir".toList utf8Decode [rcExampleEntry]
      = main "p".toList (some true) "dir".toList utf8Decode [rcExampleEntry] :=
  ⟨(C1_autodetect_on_directory "p".toList "testrc".toList utf8Decode [rcExampleEntry]).1
      (by decide),
    (C1_autodetect_on_directory "p".toList "dir".toList utf8Decode [rcExampleEntry]).2
      (by decide)⟩

theorem endswith_concat (s : Str) (c : Char) : endswith (s ++ [c]) [c] = true := by
  unfold endswith
  exact List.isSuffixOf_iff_suffix.mpr ⟨s, rfl⟩

theorem endswith_of_getLast (s : Str) (c : Char) (h : endswith s [c] = true) :
    s.getLast? = some c := by
  unfold endswith at h
  rcases List.isSuffixOf_iff_suffix.mp h with ⟨t, ht⟩
  rw [← ht, List.getLast?_concat]

/-- C3: exactly one trailing newline is removed when the resolved content
ends with a newline, and nothing otherwise: appending one newline is undone
exactly, a string not ending in a newline is unchanged, `hello\n` becomes
`hello`, `hello\n\n` becomes `hello\n`, and a newline followed by other
trailing whitespace is left alone. -/
theorem C3_strip_one_newline (s : Str) :
    stripNewline (s ++ ['\n']) = s
    ∧ (s.getLast? ≠ some '\n' → stripNewline s = s)
    ∧ stripNewline "hello\n".toList = "hello".toList
    ∧ stripNewline "hello\n\n".toList = "hello\n".toList
    ∧ stripNewline ('a' :: '\n' :: ' ' :: '\t' :: [])
        = 'a' :: '\n' :: ' ' :: '\t' :: [] := by
  refine ⟨?_, ?_, by decide, by decide, by decide⟩
  · rw [stripNewline, if_pos (endswith_concat s '\n'), List.dropLast_concat]
  · intro h
    rw [stripNewline, if_neg]
    intro hc
    exact h (endswith_of_getLast s '\n' hc)

/-- Closed instance of `C3_strip_one_newline` at concrete inputs. -/
theorem C3_witness :
    stripNewline ('h' :: 'i' :: [] ++ ['\n']) = 'h' :: 'i' :: []
    ∧ stripNewline ('h' :: 'i' :: []) = 'h' :: 'i' :: [] :=
  ⟨(C3_strip_one_newline ('h' :: 'i' :: [])).1,
    (C3_strip_one_newline ('h' :: 'i' :: [])).2.1 (by decide)⟩

/-- C7: a failure to list the target directory is fatal: the run produces no
output line and exits with a non-zero status; when the listing succeeds the
run exits with status zero, whatever per-entry warnings were emitted. -/
theorem C7_listing_fatal (prog : Str) (flag : Option Bool) (dir : Str)
    (dec : List Nat → Except Str Str) (listing : Except Str (List EntryFS)) :
    (∀ err, listing = .error err →
      runMain prog flag dir dec listing = .error err
        ∧ exitCode (runMain prog flag dir dec listing) ≠ 0)
    ∧ (∀ entries, listing = .ok entries →
      runMain prog flag dir dec listing = .ok (main prog flag dir dec entries)
        ∧ exitCode (runMain prog flag dir dec listing) = 0) := by
  constructor
  · intro err h; subst h; exact ⟨rfl, by simp [runMain, exitCode]⟩
  · intro entries h; subst h; exact ⟨rfl, rfl⟩

/-- Closed instance of `C7_listing_fatal`: a listing error yields a non-zero
exit and no output; a listing that succeeds but whose only entry is skipped
with a warning still exits with zero. -/
theorem C7_witness :
    runMain "p".toList none "d".toList utf8Decode (.error "No such file".toList)
      = .error "No such file".toList
    ∧ exitCode (runMain "p".toList none "d".toList utf8Decode
        (.error "No such file".toList)) ≠ 0
    ∧ exitCode (runMain "p".toList none "d".toList utf8Decode
        (.ok [{ name := ['A'], statResult := .error ['x'], spawnResult := .error [],
                fileBytes := .error [] }])) = 0 :=
  ⟨((C7_listing_fatal "p".toList none "d".toList utf8Decode
      (.error "No such file".toList)).1 "No such file".toList rfl).1,
    ((C7_listing_fatal "p".toList none "d".toList utf8Decode
      (.error "No such file".toList)).1 "No such file".toList rfl).2,
    ((C7_listing_fatal "p".toList none "d".toList utf8Decode
      (.ok [{ name := ['A'], statResult := .error ['x'], spawnResult := .error [],
              fileBytes := .error [] }])).2 _ rfl).2⟩

/-- C9, counterexample: `from_file` does not return the full UTF-8-decoded
content: reading the bytes of `a\r\nb` yields `a\nb`, while a plain UTF-8
decode of the same bytes yields `a\r\nb`. -/
theorem C9_counterexample :
    from_file utf8Decode (.ok [97, 13, 10, 98]) = .ok ('a' :: '\n' :: 'b' :: [])
    ∧ utf8Decode [97, 13, 10, 98] = .ok ('a' :: '\r' :: '\n' :: 'b' :: [])
    ∧ ('a' :: '\n' :: 'b' :: [] : Str) ≠ 'a' :: '\r' :: '\n' :: 'b' :: [] := by
  refine ⟨by decide, by decide, by decide⟩

/-- C9, amended: for every Readable entry, `from_file` opens the entry and
reads its entire content as text (decoded with the runtime's locale codec,
UTF-8 in the usual POSIX locales), applying universal-newline translation —
each carriage-return/line-feed pair and each lone carriage return becomes a
line feed — and fails with a FileReadError on any I/O or decoding failure;
on success the whole translated content is returned. -/
theorem C9_from_file_text_read (dec : List Nat → Except Str Str) (bs : List Nat)
    (err s : Str) :
    from_file dec (.error err) = .error err
    ∧ (dec bs = .error err → from_file dec (.ok bs) = .error err)
    ∧ (dec bs = .ok s → from_file dec (.ok bs) = .ok (universalNewlines s)) := by
  refine ⟨rfl, ?_, ?_⟩ <;> intro h <;> simp [from_file, h, Except.map]

/-- Closed instance of `C9_from_file_text_read` at concrete inputs. -/
theorem C9_witness :
    from_file utf8Decode (.ok [97, 13, 10, 98])
      = .ok (universalNewlines ('a' :: '\r' :: '\n' :: 'b' :: []))
    ∧ from_file utf8Decode (.ok [233]) = .error decodeErr :=
  ⟨(C9_from_file_text_read utf8Decode [97, 13, 10, 98] [] ('a' :: '\r' :: '\n' :: 'b' :: [])).2.2
      (by decide),
    (C9_from_file_text_read utf8Decode [233] decodeErr []).2.1 (by decide)⟩

theorem agreeEntry_eq {a b : EntryFS} (h : agreeEntry a b) : a = b := by
  obtain ⟨h1, h2, h3, h4⟩ := h
  cases a; cases b
  simp only at h1 h2 h3 h4
  simp [h1, h2, h3, h4]

/-- C10: for a fixed export flag, program name, directory path, locale codec
and directory snapshot (entry names, stat results, captured program results
and file bytes), two runs of the driver produce identical output lines in
the same order and identical warning lines in the same order. -/
theorem C10_deterministic (prog : Str) (flag : Option Bool) (dir : Str)
    (dec : List Nat → Except Str Str) (es1 es2 : List EntryFS)
    (h : List.Forall₂ agreeEntry es1 es2) :
    (main prog flag dir dec es1).1 = (main prog flag dir dec es2).1
    ∧ (main prog flag dir dec es1).2 = (main prog flag dir dec es2).2 := by
  have heq : es1 = es2 := by
    induction h with
    | nil => rfl
    | cons ha _ ih => rw [agreeEntry_eq ha, ih]
  rw [heq]
  exact ⟨rfl, rfl⟩

/-- Closed instance of `C10_deterministic` at a concrete snapshot. -/
theorem C10_witness :
    (main "p".toList none "d".toList utf8Decode [rcExampleEntry]).1
      = (main "p".toList none "d".toList utf8Decode [rcExampleEntry]).1
    ∧ (main "p".toList none "d".toList utf8Decode [rcExampleEntry]).2
      = (main "p".toList none "d".toList utf8Decode [rcExampleEntry]).2 :=
  C10_deterministic "p".toList none "d".toList utf8Decode [rcExampleEntry] [rcExampleEntry]
    (List.Forall₂.cons ⟨rfl, rfl, rfl, rfl⟩ List.Forall₂.nil)

theorem assign_ne_word : ∀ (p n r t : Str), n.all isSafeChar = true →
    ('=' ∉ p) → (∃ c ∈ p, isSafeChar c = false) → n ++ '=' :: r ≠ p ++ t
  | [], _, _, _ => by
    intro _ _ hex
    simp at hex
  | pc :: ps, [], r, t => by
    intro _ hne hex h
    simp only [List.nil_append, List.cons_append, List.cons.injEq] at h
    apply hne
    rw [h.1]
    exact List.mem_cons_self pc ps
  | pc :: ps, nc :: ns, r, t => by
    intro hs hne hex h
    simp only [List.cons_append, List.cons.injEq] at h
    obtain ⟨hehead, htail⟩ := h
    simp only [List.all_cons, Bool.and_eq_true] at hs
    rcases hex with ⟨c, hc, hcu⟩
    rcases List.mem_cons.mp hc with rfl | hcs
    · rw [← hehead, hs.1] at hcu
      cases hcu
    · exact assign_ne_word ps ns r t hs.2
        (fun hm => hne (List.mem_cons_of_mem _ hm)) ⟨c, hcs, hcu⟩ htail

theorem export_no_single_step (n c t : Str) :
    export_env_script n c ≠ "export ".toList ++ t := by
  intro h
  unfold export_env_script at h
  have hw : ("export ".toList : Str) = 'e' :: 'x' :: 'p' :: 'o' :: 'r' :: 't' :: ' ' :: [] := rfl
  have heq : ("=".toList : Str) = ['='] := rfl
  rw [hw, heq] at h
  simp only [List.cons_append, List.nil_append, List.append_assoc,
    List.singleton_append] at h
  by_cases hn : n = []
  · subst hn
    have hq : shlex_quote [] = ['\'', '\''] := rfl
    rw [hq] at h
    simp only [List.cons_append, List.cons.injEq] at h
    exact absurd h.1 (by decide)
  · by_cases hsafe : n.all isSafeChar
    · rw [shlex_quote, if_neg hn, if_pos hsafe] at h
      exact assign_ne_word ('e' :: 'x' :: 'p' :: 'o' :: 'r' :: 't' :: ' ' :: []) n _ t
        hsafe (by decide) ⟨' ', by decide, by decide⟩ (by simpa using h)
    · rw [shlex_quote, if_neg hn, if_neg hsafe] at h
      simp only [List.cons_append, List.cons.injEq] at h
      exact absurd h.1 (by decide)

/-- C8: the export renderer quotes name and value independently and emits
the quoted assignment followed by a separate export of the same quoted name
— its output extends the no-export renderer's output and never has the
single-step `export NAME=VALUE` shape — while the no-export renderer emits
only the quoted assignment. -/
theorem C8_render_shapes (n c : Str) :
    export_env_script n c
      = no_export_env_script n c ++ "; export ".toList ++ shlex_quote n
    ∧ no_export_env_script n c = shlex_quote n ++ "=".toList ++ shlex_quote c
    ∧ (∀ t, export_env_script n c ≠ "export ".toList ++ t) := by
  refine ⟨?_, rfl, export_no_single_step n c⟩
  unfold export_env_script no_export_env_script
  simp [List.append_assoc]

/-- Closed instance of `C8_render_shapes` at concrete inputs. -/
theorem C8_witness :
    export_env_script ('W' :: []) ('w' :: [])
      = no_export_env_script ('W' :: []) ('w' :: []) ++ "; export ".toList
          ++ shlex_quote ('W' :: [])
    ∧ export_env_script ('W' :: []) ('w' :: []) ≠ "export ".toList ++ "W=w".toList :=
  ⟨(C8_render_shapes ('W' :: []) ('w' :: [])).1,
    (C8_render_shapes ('W' :: []) ('w' :: [])).2.2 "W=w".toList⟩

theorem executable_iff (m : Nat) :
    executable m = true ↔ (m.testBit 6 ∨ m.testBit 3 ∨ m.testBit 0) := by
  unfold executable
  rw [show ((0o100 ||| 0o10 ||| 0o1 : Nat)) = 73 from rfl, Nat.and_assoc,
    show ((0o7777 &&& 73 : Nat)) = 73 from rfl]
  rw [bne_iff_ne, ne_eq]
  constructor
  · intro h
    obtain ⟨i, hi⟩ := Nat.ne_zero_implies_bit_true h
    rw [Nat.testBit_and, Bool.and_eq_true] at hi
    by_cases hi7 : i < 7
    · interval_cases i
      all_goals first
        | exact absurd hi.2 (by decide)
        | exact Or.inl hi.1
        | exact Or.inr (Or.inl hi.1)
        | exact Or.inr (Or.inr hi.1)
    · have : (73 : Nat).testBit i = false := by
        apply Nat.testBit_lt_two_pow
        calc (73 : Nat) < 2 ^ 7 := by norm_num
          _ ≤ 2 ^ i := Nat.pow_le_pow_right (by norm_num) (by omega)
      rw [this] at hi
      exact absurd hi.2 (by simp)
  · intro h h0
    have hbit : ∀ k, m.testBit k = true → (73 : Nat).testBit k = true →
        (m &&& 73).testBit k = true := by
      intro k hk h73
      rw [Nat.testBit_and, hk, h73]
      rfl
    rcases h with h | h | h
    · have := hbit 6 h (by decide); rw [h0, Nat.zero_testBit] at this; cases this
    · have := hbit 3 h (by decide); rw [h0, Nat.zero_testBit] at this; cases this
    · have := hbit 0 h (by decide); rw [h0, Nat.zero_testBit] at this; cases this

theorem directory_ignores_perm (m p : Nat) (hp : p &&& 0o170000 = 0) :
    directory (m ||| p) = directory m := by
  unfold directory
  have key : (m ||| p) &&& 0o170000 = m &&& 0o170000 := by
    apply Nat.eq_of_testBit_eq
    intro i
    have hpz : (p.testBit i && (0o170000 : Nat).testBit i) = false := by
      rw [← Nat.testBit_and, hp, Nat.zero_testBit]
    rw [Nat.testBit_and, Nat.testBit_or, Nat.testBit_and]
    cases hm : m.testBit i <;> cases hq : p.testBit i
      <;> cases hd : (0o170000 : Nat).testBit i <;> simp_all
  rw [key]

theorem walkSorted_append (dir : Str) (dec : List Nat → Except Str Str)
    (l1 l2 : List EntryFS) :
    walkSorted dir dec (l1 ++ l2)
      = ((walkSorted dir dec l1).1 ++ (walkSorted dir dec l2).1,
         (walkSorted dir dec l1).2 ++ (walkSorted dir dec l2).2) := by
  induction l1 with
  | nil => simp [walkSorted]
  | cons e l ih =>
    rw [List.cons_append]
    cases hp : processEntry dir dec e with
    | error w => simp [walkSorted, hp, ih]
    | ok o => cases o <;> simp [walkSorted, hp, ih]

/-- C5: an entry whose stat mode has directory type bits is skipped silently
— no output pair and no skip report, whatever its permission bits (adding
permission-only bits, execute bits included, never changes the
classification) — and a non-directory entry is classified executable exactly
when one of the owner, group or other execute bits is set, resolving through
program execution in that case and through a file read otherwise. -/
theorem C5_classification (dir : Str) (dec : List Nat → Except Str Str) (e : EntryFS)
    (mode : Nat) (pre post : List EntryFS) (hstat : e.statResult = .ok mode) :
    (directory mode = true → processEntry dir dec e = .ok none
      ∧ walkSorted dir dec (pre ++ e :: post) = walkSorted dir dec (pre ++ post))
    ∧ (∀ perm, perm &&& 0o170000 = 0 → directory (mode ||| perm) = directory mode)
    ∧ (directory mode = false →
        (executable mode = true ↔ (mode.testBit 6 ∨ mode.testBit 3 ∨ mode.testBit 0)))
    ∧ (directory mode = false → executable mode = true →
        processEntry dir dec e = resolvedEntry dir e.name (from_program e.spawnResult))
    ∧ (directory mode = false → executable mode = false →
        processEntry dir dec e = resolvedEntry dir e.name (from_file dec e.fileBytes)) := by
  refine ⟨?_, fun perm hperm => directory_ignores_perm mode perm hperm,
    fun _ => executable_iff mode, ?_, ?_⟩
  · intro hdir
    have hproc : processEntry dir dec e = .ok none := by
      simp [processEntry, hstat, hdir]
    refine ⟨hproc, ?_⟩
    have h1 : pre ++ e :: post = (pre ++ [e]) ++ post := by simp
    rw [h1, walkSorted_append, walkSorted_append, walkSorted_append]
    simp [walkSorted, hproc]
  · intro hdir hexe
    simp [processEntry, hstat, hdir, hexe, resolvedEntry]
  · intro hdir hexe
    simp [processEntry, hstat, hdir, hexe, resolvedEntry]

/-- Closed instance of `C5_classification`: a directory entry with all
execute bits set is skipped with no output and no report, and a plain
`rw-r--r--` file is resolved by reading. -/
theorem C5_witness :
    processEntry "d".toList utf8Decode
      { name := ['D'], statResult := .ok 0o040777, spawnResult := .error [],
        fileBytes := .error [] } = .ok none
    ∧ processEntry "d".toList utf8Decode rcExampleEntry
        = resolvedEntry "d".toList rcExampleEntry.name
            (from_file utf8Decode rcExampleEntry.fileBytes) :=
  ⟨((C5_classification "d".toList utf8Decode
      { name := ['D'], statResult := .ok 0o040777, spawnResult := .error [],
        fileBytes := .error [] } 0o040777 [] [] rfl).1 (by decide)).1,
    (C5_classification "d".toList utf8Decode rcExampleEntry 0o100644 [] [] rfl).2.2.2.2
      (by decide) (by decide)⟩

/-- C6: every per-entry failure — stat failure, program-execution failure
including a non-zero exit status, or file-read failure — is caught at the
entry-processing boundary: the failing entry contributes no output pair,
exactly one skip report with the line
`<program-name>: skipping <path>: <reason>` is produced, and all other
entries are processed as if the failing entry were absent. -/
theorem C6_failures_are_caught (prog dir : Str) (dec : List Nat → Except Str Str)
    (e : EntryFS) (pre post : List EntryFS) (reason : Str) :
    (e.statResult = .error reason →
      processEntry dir dec e = .error (pathJoin dir e.name, reason))
    ∧ (∀ mode, e.statResult = .ok mode → directory mode = false →
        executable mode = true → from_program e.spawnResult = .error reason →
        processEntry dir dec e = .error (pathJoin dir e.name, reason))
    ∧ (∀ mode, e.statResult = .ok mode → directory mode = false →
        executable mode = false → from_file dec e.fileBytes = .error reason →
        processEntry dir dec e = .error (pathJoin dir e.name, reason))
    ∧ (∀ code out, e.spawnResult = .ok (code, out) → code ≠ 0 →
        from_program e.spawnResult
          = .error "CalledProcessError: non-zero exit status".toList)
    ∧ (processEntry dir dec e = .error (pathJoin dir e.name, reason) →
        (walkSorted dir dec (pre ++ e :: post)).1
            = (walkSorted dir dec (pre ++ post)).1
        ∧ (walkSorted dir dec (pre ++ e :: post)).2
            = (walkSorted dir dec pre).2
                ++ (pathJoin dir e.name, reason) :: (walkSorted dir dec post).2)
    ∧ warn_on_skipped prog (pathJoin dir e.name) reason
        = prog ++ ": skipping ".toList ++ pathJoin dir e.name ++ ": ".toList ++ reason := by
  refine ⟨?_, ?_, ?_, ?_, ?_, rfl⟩
  · intro h; simp [processEntry, h]
  · intro mode hs hd hx hp; simp [processEntry, hs, hd, hx, hp]
  · intro mode hs hd hx hf; simp [processEntry, hs, hd, hx, hf]
  · intro code out hsp hc; simp [from_program, hsp, hc]
  · intro hproc
    have h1 : pre ++ e :: post = (pre ++ [e]) ++ post := by simp
    rw [h1, walkSorted_append, walkSorted_append, walkSorted_append]
    simp [walkSorted, hproc]

/-- Closed instance of `C6_failures_are_caught`: a stat failure turns into a
skip report and leaves the surrounding entries' results unchanged. -/
theorem C6_witness :
    processEntry "d".toList utf8Decode
      { name := ['B'], statResult := .error "denied".toList, spawnResult := .error [],
        fileBytes := .error [] } = .error (pathJoin "d".toList ['B'], "denied".toList)
    ∧ (walkSorted "d".toList utf8Decode
        ([rcExampleEntry]
          ++ { name := ['B'], statResult := .error "denied".toList,
               spawnResult := .error [], fileBytes := .error [] } :: [])).1
      = (walkSorted "d".toList utf8Decode ([rcExampleEntry] ++ [])).1 :=
  ⟨(C6_failures_are_caught "p".toList "d".toList utf8Decode
      { name := ['B'], statResult := .error "denied".toList, spawnResult := .error [],
        fileBytes := .error [] } [rcExampleEntry] [] "denied".toList).1 rfl,
    ((C6_failures_are_caught "p".toList "d".toList utf8Decode
      { name := ['B'], statResult := .error "denied".toList, spawnResult := .error [],
        fileBytes := .error [] } [rcExampleEntry] [] "denied".toList).2.2.2.2.1
      (by decide)).1⟩

theorem processEntry_out_name (dir : Str) (dec : List Nat → Except Str Str)
    (e : EntryFS) (o : Str × Str) (h : processEntry dir dec e = .ok (some o)) :
    o.1 = e.name := by
  unfold processEntry at h
  cases hs : e.statResult with
  | error r => rw [hs] at h; simp at h
  | ok mode =>
    rw [hs] at h
    by_cases hd : directory mode
    · simp [hd] at h
    · simp only [hd, Bool.false_eq_true, if_false] at h
      cases hr : (if executable mode then from_program e.spawnResult
          else from_file dec e.fileBytes) with
      | error w => rw [hr] at h; simp at h
      | ok content =>
        rw [hr] at h
        simp only [Except.ok.injEq, Option.some.injEq] at h
        rw [← h]

theorem processEntry_emit_iff (dir : Str) (dec : List Nat → Except Str Str)
    (e : EntryFS) :
    entryEmitsLine dec e = true ↔ ∃ o, processEntry dir dec e = .ok (some o) := by
  unfold entryEmitsLine processEntry
  cases hs : e.statResult with
  | error r => simp
  | ok mode =>
    by_cases hd : directory mode
    · simp [hd]
    · cases hr : (if executable mode then from_program e.spawnResult
          else from_file dec e.fileBytes) with
      | error w => simp [hd, hr]
      | ok content => simp [hd, hr]

theorem walkSorted_count (dir : Str) (dec : List Nat → Except Str Str) :
    ∀ l : List EntryFS,
      (walkSorted dir dec l).1.length = l.countP (entryEmitsLine dec)
  | [] => by simp [walkSorted]
  | e :: l => by
    rw [List.countP_cons]
    cases hp : processEntry dir dec e with
    | error w =>
      have hemit : entryEmitsLine dec e = false := by
        cases hb : entryEmitsLine dec e
        · rfl
        · obtain ⟨o, ho⟩ := (processEntry_emit_iff dir dec e).mp hb
          rw [hp] at ho; simp at ho
      simp [walkSorted, hp, hemit, walkSorted_count dir dec l]
    | ok o =>
      cases o with
      | none =>
        have hemit : entryEmitsLine dec e = false := by
          cases hb : entryEmitsLine dec e
          · rfl
          · obtain ⟨o, ho⟩ := (processEntry_emit_iff dir dec e).mp hb
            rw [hp] at ho; simp at ho
        simp [walkSorted, hp, hemit, walkSorted_count dir dec l]
      | some o =>
        have hemit : entryEmitsLine dec e = true :=
          (processEntry_emit_iff dir dec e).mpr ⟨o, hp⟩
        simp [walkSorted, hp, hemit, walkSorted_count dir dec l]

theorem walkSorted_names_sublist (dir : Str) (dec : List Nat → Except Str Str) :
    ∀ l : List EntryFS,
      ((walkSorted dir dec l).1.map Prod.fst).Sublist (l.map (fun e => e.name))
  | [] => by simp [walkSorted]
  | e :: l => by
    cases hp : processEntry dir dec e with
    | error w =>
      simp only [walkSorted, hp, List.map_cons]
      exact (walkSorted_names_sublist dir dec l).cons e.name
    | ok o =>
      cases o with
      | none =>
        simp only [walkSorted, hp, List.map_cons]
        exact (walkSorted_names_sublist dir dec l).cons e.name
      | some o =>
        simp only [walkSorted, hp, List.map_cons]
        rw [processEntry_out_name dir dec e o hp]
        exact (walkSorted_names_sublist dir dec l).cons₂ e.name

/-- C4: with distinct entry names in the listing, the walk emits exactly one
pair per entry that takes the success path (stat-able, not a directory,
resolution succeeded), the emitted names are in strictly ascending
lexicographic order with no name repeated, and the driver's primary output
has exactly one line per such entry. -/
theorem C4_output_order_and_count (prog : Str) (flag : Option Bool) (dir : Str)
    (dec : List Nat → Except Str Str) (entries : List EntryFS)
    (hnodup : (entries.map (fun e => e.name)).Nodup) :
    ((walk_entries dir dec entries).1.map Prod.fst).Pairwise
        (fun a b => strLt a b = true)
    ∧ (walk_entries dir dec entries).1.length = entries.countP (entryEmitsLine dec)
    ∧ (main prog flag dir dec entries).1.length = entries.countP (entryEmitsLine dec)
    ∧ ((walk_entries dir dec entries).1.map Prod.fst).Nodup := by
  have hperm : List.Perm (sortEntries entries) entries :=
    List.perm_insertionSort entryLe entries
  have hsorted : (sortEntries entries).Pairwise entryLe :=
    List.sorted_insertionSort entryLe entries
  have hnds : ((sortEntries entries).map (fun e => e.name)).Nodup :=
    (List.Perm.nodup_iff (hperm.map (fun e => e.name))).mpr hnodup
  have hne : (sortEntries entries).Pairwise (fun a b => a.name ≠ b.name) :=
    (List.pairwise_map).mp hnds
  have hlt : (sortEntries entries).Pairwise (fun a b => strLt a.name b.name = true) :=
    (hsorted.and hne).imp (fun h => strLe_ne_lt h.1 h.2)
  have hmap : ((sortEntries entries).map (fun e => e.name)).Pairwise
      (fun a b => strLt a b = true) := (List.pairwise_map).mpr hlt
  have hsub := walkSorted_names_sublist dir dec (sortEntries entries)
  have hpw : ((walk_entries dir dec entries).1.map Prod.fst).Pairwise
      (fun a b => strLt a b = true) := List.Pairwise.sublist hsub hmap
  refine ⟨hpw, ?_, ?_, ?_⟩
  · rw [walk_entries, walkSorted_count, hperm.countP_eq]
  · show ((walk_entries dir dec entries).1.map _).length = _
    rw [List.length_map, walk_entries, walkSorted_count, hperm.countP_eq]
  · exact hpw.imp (fun h heq => by rw [heq, strLt_irrefl] at h; cases h)

/-- Closed instance of `C4_output_order_and_count` on a concrete listing. -/
theorem C4_witness :
    ((walk_entries "d".toList utf8Decode C4Entries).1.map Prod.fst).Pairwise
        (fun a b => strLt a b = true)
    ∧ (walk_entries "d".toList utf8Decode C4Entries).1.length
        = C4Entries.countP (entryEmitsLine utf8Decode) :=
  ⟨(C4_output_order_and_count "p".toList none "d".toList utf8Decode C4Entries
      (by decide)).1,
    (C4_output_order_and_count "p".toList none "d".toList utf8Decode C4Entries
      (by decide)).2.1⟩

end Envdir
